import Mathlib

/-!
Verification of the express-cache tutorial repository.

The repository is a small Express app: a TTL cache middleware
(`middleware/crypto.cache.js`), an upstream fetch service
(`services/fetch.js`, `services/crypto.services.js`), a controller
(`controllers/crypto.controllers.js`) and a router wiring
`GET /crypto` to middleware-then-controller.  All of that code appears
verbatim in the repository (`services/crypto.services.js` and the code
blocks of `README.md`); the definitions below embed it shallowly.

Modelling choices:
* Time is a `Nat` (seconds).  The cache is constructed with
  `new Cache({ stdTTL: 60 * 5 })`, so `stdTTL = 300` seconds.
* node-cache stores, per key, the value together with an expiry stamp
  `t = now + ttl`; `has`/`get` treat an entry as live iff `now ≤ t`
  (node-cache expires an entry when `t < Date.now()`).  The keyed
  object is embedded as an association list whose `set` overwrites the
  key (object property assignment).
* The upstream HTTP call is embedded by its outcome: an
  `Except ε (List α)` value (decoded record list, or a fetch error).
* `Array.prototype.slice(0, amount)`: with a numeric `amount` it takes
  the first `amount` elements; with `amount` undefined it copies the
  whole array.  `amount` is embedded as `Option Nat` (`none` =
  undefined), covering every call in the repository (`cryptoApi(25)`).
* A `GET /crypto` request is embedded as `handleCryptoGet`, recording
  the response body/status, the resulting cache, and counters for
  upstream fetches, middleware sends and controller invocations.
-/

namespace ExpressCache

/-- `new Cache({ stdTTL: 60 * 5 })` in `middleware/crypto.cache.js`. -/
def stdTTL : Nat := 60 * 5

/-- A node-cache entry: the stored value with its expiry stamp
(`t = now + ttl` at `set` time). -/
structure CacheEntry (α : Type) where
  value : α
  expiry : Nat
deriving DecidableEq, Repr

/-- The node-cache keyed store, embedded as an association list. -/
abbrev Cache (α : Type) : Type := List (String × CacheEntry α)

/-- Raw keyed access into the store (no expiry check). -/
def Cache.lookup {α : Type} (c : Cache α) (key : String) :
    Option (CacheEntry α) :=
  (List.find? (fun p => p.1 == key) c).map Prod.snd

/-- `cache.set(key, value)`: store `value` under `key` with expiry
`now + stdTTL`, overwriting any entry previously stored under `key`. -/
def Cache.set {α : Type} (c : Cache α) (key : String) (value : α)
    (now : Nat) : Cache α :=
  (key, ⟨value, now + stdTTL⟩) :: List.filter (fun p => p.1 != key) c

/-- `cache.has(key)`: true iff an entry for `key` exists and is not
expired (`now ≤ expiry`). -/
def Cache.has {α : Type} (c : Cache α) (key : String) (now : Nat) : Bool :=
  match c.lookup key with
  | some e => decide (now ≤ e.expiry)
  | none => false

/-- `cache.get(key)`: the stored value if present and unexpired,
`none` (JS `undefined`) otherwise. -/
def Cache.get {α : Type} (c : Cache α) (key : String) (now : Nat) :
    Option α :=
  match c.lookup key with
  | some e => if now ≤ e.expiry then some e.value else none
  | none => none

/-- `result.slice(0, amount)` of `crypto.services.js`: `amount = none`
embeds the JS call with `amount` undefined (slice to the end). -/
def jsSliceFromZero {α : Type} (l : List α) : Option Nat → List α
  | some n => l.take n
  | none => l

/-- `services/fetch.js`: `FetchApi` returns the decoded body or
rethrows the error; embedded by the outcome of the HTTP call. -/
def FetchApi {α ε : Type} (upstream : Except ε (List α)) :
    Except ε (List α) :=
  upstream

/-- `services/crypto.services.js`: fetch the ticker endpoint and
return `result.slice(0, amount)`; a fetch error is rethrown. -/
def cryptoApi {α ε : Type} (upstream : Except ε (List α))
    (amount : Option Nat) : Except ε (List α) :=
  match FetchApi upstream with
  | Except.ok result => Except.ok (jsSliceFromZero result amount)
  | Except.error err => Except.error err

/-- The single cache key used by the app. -/
def cryptoKey : String := "crypto-list"

/-- Observable outcome of one `GET /crypto` request: response body and
status, resulting cache, and counts of upstream fetches, middleware
sends and controller invocations; `thrown` is the rethrown fetch
error, if any. -/
structure CryptoResult (α ε : Type) where
  body : Option (List α)
  status : Nat
  cache : Cache (List α)
  fetchCount : Nat
  middlewareSends : Nat
  controllerCalls : Nat
  thrown : Option ε
deriving DecidableEq, Repr

/-- `controllers/crypto.controllers.js`: `cryptoApi(25)`, then
`cryptoCache.set("crypto-list", data)` and `res.send(data)` with
status 200; on failure `res.status(500)` and the error is rethrown
(cache untouched).  The upstream fetch is attempted exactly once. -/
def cryptoController {α ε : Type} (cache : Cache (List α)) (now : Nat)
    (upstream : Except ε (List α)) : CryptoResult α ε :=
  match cryptoApi upstream (some 25) with
  | Except.ok data =>
      { body := some data
        status := 200
        cache := cache.set cryptoKey data now
        fetchCount := 1
        middlewareSends := 0
        controllerCalls := 1
        thrown := none }
  | Except.error err =>
      { body := none
        status := 500
        cache := cache
        fetchCount := 1
        middlewareSends := 0
        controllerCalls := 1
        thrown := some err }

/-- `router.get("/crypto", cryptoCacheMiddleware, cryptoController)`:
the middleware sends `cryptoCache.get("crypto-list")` (status 200)
when `cryptoCache.has("crypto-list")`, otherwise calls `next()` which
runs the controller. -/
def handleCryptoGet {α ε : Type} (cache : Cache (List α)) (now : Nat)
    (upstream : Except ε (List α)) : CryptoResult α ε :=
  if cache.has cryptoKey now then
    { body := cache.get cryptoKey now
      status := 200
      cache := cache
      fetchCount := 0
      middlewareSends := 1
      controllerCalls := 0
      thrown := none }
  else
    cryptoController cache now upstream

/-- Every key of the store maps to at most one entry. -/
def KeysUnique {α : Type} (c : Cache α) : Prop :=
  (c.map Prod.fst).Nodup

instance {α : Type} (c : Cache α) : Decidable (KeysUnique c) := by
  unfold KeysUnique; infer_instance

/-- Looking up the key just set yields the new entry. -/
theorem lookup_set_self {α : Type} (c : Cache α) (k : String) (v : α)
    (now : Nat) :
    Cache.lookup (Cache.set c k v now) k = some ⟨v, now + stdTTL⟩ := by
  simp [Cache.lookup, Cache.set, List.find?]

/-- `has` right after `set` checks exactly `now ≤ s + stdTTL`. -/
theorem has_set_self {α : Type} (c : Cache α) (k : String) (v : α)
    (s now : Nat) :
    Cache.has (Cache.set c k v s) k now = decide (now ≤ s + stdTTL) := by
  unfold Cache.has
  rw [lookup_set_self]

/-- `get` right after `set`, while unexpired, returns the set value. -/
theorem get_set_self {α : Type} (c : Cache α) (k : String) (v : α)
    (s now : Nat) (h : now ≤ s + stdTTL) :
    Cache.get (Cache.set c k v s) k now = some v := by
  unfold Cache.get
  rw [lookup_set_self]
  simp [h]

/-- Once `has` is false it stays false at any later time (expiry only
recedes further into the past). -/
theorem has_false_mono {α : Type} (c : Cache α) (k : String)
    (t t' : Nat) (htt : t ≤ t') (h : Cache.has c k t = false) :
    Cache.has c k t' = false := by
  unfold Cache.has at h ⊢
  cases hl : Cache.lookup c k with
  | none => rfl
  | some e =>
      rw [hl] at h
      simp only [decide_eq_false_iff_not] at h ⊢
      omega

/-- When `has` holds, `get` returns the stored value. -/
theorem get_of_has {α : Type} (c : Cache α) (k : String) (now : Nat)
    (h : Cache.has c k now = true) :
    ∃ e, Cache.lookup c k = some e ∧
      Cache.get c k now = some e.value := by
  unfold Cache.has at h
  cases hl : Cache.lookup c k with
  | none => rw [hl] at h; cases h
  | some e =>
      rw [hl] at h
      simp only [decide_eq_true_eq] at h
      exact ⟨e, rfl, by unfold Cache.get; rw [hl]; simp [h]⟩

/-- C1: For every upstream result list and every truncation count
`N ≥ 0`, `cryptoApi` returns the order-preserving prefix of the
upstream list: at most `N` records, and exactly `N` records when the
upstream list has at least `N` records. -/
theorem cryptoApi_returns_prefix {α ε : Type} (l : List α) (n : Nat) :
    cryptoApi (ε := ε) (Except.ok l) (some n) = Except.ok (l.take n) ∧
    l.take n <+: l ∧
    (l.take n).length ≤ n ∧
    (n ≤ l.length → (l.take n).length = n) := by
  refine ⟨rfl, List.take_prefix n l, ?_, ?_⟩ <;>
    simp [List.length_take]

/-- C1 witness: concrete instance with ten records truncated to two. -/
theorem cryptoApi_returns_prefix_witness :
    cryptoApi (ε := Unit)
        (Except.ok [0, 1, 2, 3, 4, 5, 6, 7, 8, 9]) (some 2) =
      Except.ok [0, 1] ∧
    [0, 1] <+: [0, 1, 2, 3, 4, 5, 6, 7, 8, 9] ∧
    ([0, 1] : List Nat).length ≤ 2 ∧
    ([0, 1] : List Nat).length = 2 := by
  have h := cryptoApi_returns_prefix (ε := Unit)
    [0, 1, 2, 3, 4, 5, 6, 7, 8, 9] 2
  refine ⟨h.1, h.2.1, h.2.2.1, h.2.2.2 (by decide)⟩

/-- C4: `has(key)` is true iff an entry exists for the key and the
time elapsed since it was stored has not exceeded its TTL
(`now - s ≤ stdTTL` after a `set` at time `s`); on an empty store
`has` is false. -/
theorem has_iff_ttl_not_exceeded {α : Type} (c : Cache α) (k : String)
    (v : α) (s now : Nat) :
    (Cache.has (Cache.set c k v s) k now = true ↔ now - s ≤ stdTTL) ∧
    Cache.has ([] : Cache α) k now = false := by
  constructor
  · rw [has_set_self]
    simp only [decide_eq_true_eq]
    omega
  · rfl

/-- C5: `set(key, value)` stamps expiry `now + TTL` with
`TTL = 300` seconds, overwrites any existing entry unconditionally
(exactly one entry for the key remains), and preserves the invariant
that at most one entry exists per key. -/
theorem set_overwrites_and_unique {α : Type} (c : Cache α) (k : String)
    (v : α) (now : Nat) (h : KeysUnique c) :
    Cache.lookup (Cache.set c k v now) k = some ⟨v, now + stdTTL⟩ ∧
    stdTTL = 300 ∧
    List.countP (fun p => p.1 == k) (Cache.set c k v now) = 1 ∧
    KeysUnique (Cache.set c k v now) := by
  refine ⟨lookup_set_self c k v now, rfl, ?_, ?_⟩
  · unfold Cache.set
    rw [List.countP_cons_of_pos _ _ (by simp)]
    have hz : List.countP (fun p => p.1 == k)
        (List.filter (fun p => p.1 != k) c) = 0 := by
      rw [List.countP_eq_zero]
      intro p hp
      have := (List.mem_filter.mp hp).2
      simpa using this
    omega
  · unfold KeysUnique Cache.set
    simp only [List.map_cons, List.nodup_cons]
    constructor
    · intro hmem
      obtain ⟨p, hp, hpk⟩ := List.mem_map.mp hmem
      have := (List.mem_filter.mp hp).2
      simp [hpk] at this
    · exact ((List.filter_sublist _).map Prod.fst).nodup h

/-- C5 witness: overwriting a concrete one-entry store. -/
theorem set_overwrites_and_unique_witness :
    KeysUnique ([("a", ⟨1, 5⟩)] : Cache Nat) ∧
    (Cache.lookup (Cache.set ([("a", ⟨1, 5⟩)] : Cache Nat) "a" 2 10) "a"
        = some ⟨2, 10 + stdTTL⟩ ∧
      stdTTL = 300 ∧
      List.countP (fun p => p.1 == "a")
        (Cache.set ([("a", ⟨1, 5⟩)] : Cache Nat) "a" 2 10) = 1 ∧
      KeysUnique (Cache.set ([("a", ⟨1, 5⟩)] : Cache Nat) "a" 2 10)) :=
  ⟨by decide, set_overwrites_and_unique [("a", ⟨1, 5⟩)] "a" 2 10 (by decide)⟩

/-- C9: exactly one of the two responders handles each `GET /crypto`
request: on a cache hit the middleware sends and the controller is
never invoked; on a miss the middleware sends nothing and the
controller runs exactly once. -/
theorem exactly_one_responder {α ε : Type} (c : Cache (List α))
    (now : Nat) (u : Except ε (List α)) :
    (handleCryptoGet c now u).middlewareSends =
      (if Cache.has c cryptoKey now then 1 else 0) ∧
    (handleCryptoGet c now u).controllerCalls =
      (if Cache.has c cryptoKey now then 0 else 1) ∧
    (handleCryptoGet c now u).middlewareSends +
      (handleCryptoGet c now u).controllerCalls = 1 := by
  unfold handleCryptoGet cryptoController cryptoApi FetchApi
  by_cases h : Cache.has c cryptoKey now = true <;>
    cases u <;> simp [h]

/-- C2: when a miss-then-successful-fetch request at `t0` is followed
by a second request at `t1` within the TTL window, the second request
returns a body identical to the first response and performs zero
upstream fetches. -/
theorem idempotent_within_ttl {α ε : Type} (c : Cache (List α))
    (t0 t1 : Nat) (l : List α) (u2 : Except ε (List α))
    (hmiss : Cache.has c cryptoKey t0 = false)
    (_h01 : t0 ≤ t1) (httl : t1 ≤ t0 + stdTTL) :
    (handleCryptoGet (handleCryptoGet c t0 (Except.ok (ε := ε) l)).cache
        t1 u2).body =
      (handleCryptoGet c t0 (Except.ok (ε := ε) l)).body ∧
    (handleCryptoGet (handleCryptoGet c t0 (Except.ok (ε := ε) l)).cache
        t1 u2).fetchCount = 0 := by
  have hr1 : handleCryptoGet c t0 (Except.ok (ε := ε) l) =
      { body := some (l.take 25)
        status := 200
        cache := Cache.set c cryptoKey (l.take 25) t0
        fetchCount := 1
        middlewareSends := 0
        controllerCalls := 1
        thrown := none } := by
    unfold handleCryptoGet cryptoController cryptoApi FetchApi jsSliceFromZero
    simp [hmiss]
  rw [hr1]
  have hhas : Cache.has (Cache.set c cryptoKey (l.take 25) t0)
      cryptoKey t1 = true := by
    rw [has_set_self]
    simpa using httl
  unfold handleCryptoGet
  simp [hhas, get_set_self _ _ _ _ _ httl]

/-- C2 witness: second request 100 seconds after the first. -/
theorem idempotent_within_ttl_witness :
    (handleCryptoGet
        (handleCryptoGet ([] : Cache (List Nat)) 0
          (Except.ok (ε := Unit) [1, 2])).cache
        100 (Except.ok [9] : Except Unit (List Nat))).body =
      (handleCryptoGet ([] : Cache (List Nat)) 0
        (Except.ok (ε := Unit) [1, 2])).body ∧
    (handleCryptoGet
        (handleCryptoGet ([] : Cache (List Nat)) 0
          (Except.ok (ε := Unit) [1, 2])).cache
        100 (Except.ok [9] : Except Unit (List Nat))).fetchCount = 0 :=
  idempotent_within_ttl [] 0 100 [1, 2] (Except.ok [9])
    (by decide) (by decide) (by decide)

/-- C3: on a cache miss whose upstream fetch fails, the response has
status 500, the cache is left unchanged, `has("crypto-list")` remains
false at any later time, and the error is rethrown. -/
theorem miss_failure_500_no_write {α ε : Type} (c : Cache (List α))
    (t t' : Nat) (e : ε)
    (hmiss : Cache.has c cryptoKey t = false) (ht : t ≤ t') :
    (handleCryptoGet c t (Except.error e : Except ε (List α))).status
        = 500 ∧
    (handleCryptoGet c t (Except.error e : Except ε (List α))).cache
        = c ∧
    Cache.has
        (handleCryptoGet c t (Except.error e : Except ε (List α))).cache
        cryptoKey t' = false ∧
    (handleCryptoGet c t (Except.error e : Except ε (List α))).thrown
        = some e := by
  have hr : handleCryptoGet c t (Except.error e : Except ε (List α)) =
      { body := none
        status := 500
        cache := c
        fetchCount := 1
        middlewareSends := 0
        controllerCalls := 1
        thrown := some e } := by
    unfold handleCryptoGet cryptoController cryptoApi FetchApi
    simp [hmiss]
  rw [hr]
  exact ⟨rfl, rfl, has_false_mono c cryptoKey t t' ht hmiss, rfl⟩

/-- C3 witness: failing fetch on an empty cache, checked again at a
later time. -/
theorem miss_failure_500_no_write_witness :
    (handleCryptoGet ([] : Cache (List Nat)) 0
        (Except.error () : Except Unit (List Nat))).status = 500 ∧
    (handleCryptoGet ([] : Cache (List Nat)) 0
        (Except.error () : Except Unit (List Nat))).cache = [] ∧
    Cache.has
        (handleCryptoGet ([] : Cache (List Nat)) 0
          (Except.error () : Except Unit (List Nat))).cache
        cryptoKey 400 = false ∧
    (handleCryptoGet ([] : Cache (List Nat)) 0
        (Except.error () : Except Unit (List Nat))).thrown = some () :=
  miss_failure_500_no_write [] 0 400 () (by decide) (by decide)

/-- C6: a request arriving after the cached entry's TTL has elapsed
performs exactly one upstream fetch and, on success, overwrites the
entry under `"crypto-list"` with the new value and a new expiry. -/
theorem refetch_after_expiry {α ε : Type} (c0 : Cache (List α))
    (data : List α) (t0 t1 : Nat) (l : List α)
    (hexp : t0 + stdTTL < t1) :
    (handleCryptoGet (Cache.set c0 cryptoKey data t0) t1
        (Except.ok (ε := ε) l)).fetchCount = 1 ∧
    Cache.lookup
        (handleCryptoGet (Cache.set c0 cryptoKey data t0) t1
          (Except.ok (ε := ε) l)).cache
        cryptoKey = some ⟨l.take 25, t1 + stdTTL⟩ := by
  have hmiss : Cache.has (Cache.set c0 cryptoKey data t0)
      cryptoKey t1 = false := by
    rw [has_set_self]
    simp only [decide_eq_false_iff_not]
    omega
  unfold handleCryptoGet cryptoController cryptoApi FetchApi jsSliceFromZero
  simp [hmiss, lookup_set_self]

/-- C6 witness: entry stored at time 0, next request at time 301. -/
theorem refetch_after_expiry_witness :
    (handleCryptoGet (Cache.set ([] : Cache (List Nat)) cryptoKey [7] 0)
        301 (Except.ok (ε := Unit) [1, 2, 3])).fetchCount = 1 ∧
    Cache.lookup
        (handleCryptoGet
          (Cache.set ([] : Cache (List Nat)) cryptoKey [7] 0) 301
          (Except.ok (ε := Unit) [1, 2, 3])).cache
        cryptoKey = some ⟨[1, 2, 3], 601⟩ := by
  have h := refetch_after_expiry (ε := Unit) ([] : Cache (List Nat))
    [7] 0 301 [1, 2, 3] (by decide)
  exact ⟨h.1, h.2.trans (by decide)⟩

/-- C7: a cache miss followed by a successful fetch truncates the
upstream result to the first 25 records, stores the truncated list
under `"crypto-list"`, and responds with it at status 200. -/
theorem miss_success_truncates {α ε : Type} (c : Cache (List α))
    (t : Nat) (l : List α)
    (hmiss : Cache.has c cryptoKey t = false) :
    (handleCryptoGet c t (Except.ok (ε := ε) l)).body
        = some (l.take 25) ∧
    Cache.lookup (handleCryptoGet c t (Except.ok (ε := ε) l)).cache
        cryptoKey = some ⟨l.take 25, t + stdTTL⟩ ∧
    (handleCryptoGet c t (Except.ok (ε := ε) l)).status = 200 := by
  unfold handleCryptoGet cryptoController cryptoApi FetchApi jsSliceFromZero
  simp [hmiss, lookup_set_self]

/-- C7 witness: thirty upstream records truncated to twenty-five. -/
theorem miss_success_truncates_witness :
    (handleCryptoGet ([] : Cache (List Nat)) 5
        (Except.ok (ε := Unit) (List.range 30))).body
        = some ((List.range 30).take 25) ∧
    Cache.lookup
        (handleCryptoGet ([] : Cache (List Nat)) 5
          (Except.ok (ε := Unit) (List.range 30))).cache
        cryptoKey = some ⟨(List.range 30).take 25, 5 + stdTTL⟩ ∧
    (handleCryptoGet ([] : Cache (List Nat)) 5
        (Except.ok (ε := Unit) (List.range 30))).status = 200 :=
  miss_success_truncates [] 5 (List.range 30) (by decide)

/-- C8: `get("crypto-list")` is only invoked on the middleware's hit
branch, where `has` has just returned true; there `get` always
returns a value, so the undefined/absent-read branch of `get` is
unreachable and the body sent is that cached value. -/
theorem get_guarded_by_has {α ε : Type} (c : Cache (List α))
    (now : Nat) (u : Except ε (List α))
    (hhit : Cache.has c cryptoKey now = true) :
    (∃ v, Cache.get c cryptoKey now = some v) ∧
    (handleCryptoGet c now u).middlewareSends = 1 ∧
    (handleCryptoGet c now u).body = Cache.get c cryptoKey now ∧
    ∃ v, (handleCryptoGet c now u).body = some v := by
  obtain ⟨e, hl, hg⟩ := get_of_has c cryptoKey now hhit
  refine ⟨⟨e.value, hg⟩, ?_, ?_, ⟨e.value, ?_⟩⟩ <;>
    simp [handleCryptoGet, hhit, hg]

/-- C8 witness: a live entry is present, so the hit branch returns
its value. -/
theorem get_guarded_by_has_witness :
    (∃ v, Cache.get ([(cryptoKey, ⟨[3], 10⟩)] : Cache (List Nat))
        cryptoKey 5 = some v) ∧
    (handleCryptoGet ([(cryptoKey, ⟨[3], 10⟩)] : Cache (List Nat)) 5
        (Except.ok (ε := Unit) [])).middlewareSends = 1 ∧
    (handleCryptoGet ([(cryptoKey, ⟨[3], 10⟩)] : Cache (List Nat)) 5
        (Except.ok (ε := Unit) [])).body =
      Cache.get ([(cryptoKey, ⟨[3], 10⟩)] : Cache (List Nat))
        cryptoKey 5 ∧
    ∃ v, (handleCryptoGet ([(cryptoKey, ⟨[3], 10⟩)] : Cache (List Nat))
        5 (Except.ok (ε := Unit) [])).body = some v :=
  get_guarded_by_has [(cryptoKey, ⟨[3], 10⟩)] 5 (Except.ok [])
    (by decide)

/-- C10: calling `cryptoApi` with an undefined amount returns the
entire upstream list untruncated. -/
theorem cryptoApi_undefined_amount {α ε : Type} (l : List α) :
    cryptoApi (ε := ε) (Except.ok l) none = Except.ok l :=
  rfl

end ExpressCache
